import Mathlib

/-!
Verification development for the guild-backup scraper (`src/main.rs`).

The program is a crash-resumable message scraper: it keeps a checkpoint
file (`State`), enumerates channels, and for each channel pages through
its message history (newest first, 100 per page), streaming the records
into a per-channel JSON array file.

This file gives a shallow embedding of the checkpoint store
(`get_active_state` / `save_active_state`), the pager
(`fetch_message_chunk`), the per-channel processing block (lines 163-223
of `main.rs`, here `processChannel`) and the outer drain loop (lines
141-232, here `drainLoop`).  Files are modelled as character lists with
an explicit write position, because the program opens files in write
mode without append or truncate, which makes positions observable.
Message records are opaque payloads; we model a record by the decimal
rendering of its stable identifier, which is all the control flow ever
inspects.
-/

abbrev ChannelId := Nat
abbrev MessageId := Nat
abbrev GuildId := Nat

/-- Fixed page size (`MESSAGE_CHUNK_SIZE` in `main.rs`). -/
def MESSAGE_CHUNK_SIZE : Nat := 100

/-- Decimal digits, written with an explicit recursion-depth argument
so the definition is structurally recursive and kernel-computable. -/
def natCharsAux : Nat → Nat → List Char
  | 0, _ => []
  | fuel + 1, n =>
    if n < 10 then [Char.ofNat (48 + n)]
    else natCharsAux fuel (n / 10) ++ [Char.ofNat (48 + n % 10)]

/-- Decimal digits of a natural number; used as the opaque serialized
form of identifiers and message records.  The depth `n + 1` is always
sufficient, since the argument shrinks strictly under division by
ten. -/
def natChars (n : Nat) : List Char := natCharsAux (n + 1) n

/-- Characters of a string literal, used to build file contents. -/
def str (s : String) : List Char := s.data

/-- The checkpoint record (`struct State` in `main.rs`).  The Rust
`HashSet<ChannelId>` is modelled as a duplicate-free list: only
membership is ever observed by the program. -/
structure State where
  current_guild : GuildId
  current_channel : Option ChannelId
  last_message : Option MessageId
  channels_complete : List ChannelId
deriving Repr, DecidableEq

/-- Set insertion into the completed-channel set (`HashSet::insert`). -/
def insertChannel (l : List ChannelId) (c : ChannelId) : List ChannelId :=
  if c ∈ l then l else l ++ [c]

/-- Comma-join of serialized records, the shape produced by the
record-writing loop (`main.rs` lines 210-215). -/
def joinComma : List (List Char) → List Char
  | [] => []
  | [r] => r
  | r :: s :: rest => r ++ ',' :: joinComma (s :: rest)

/-- Serialized form of an identifier: twilight ids serialize as JSON
strings of their decimal value. -/
def serializeId (n : Nat) : List Char := '"' :: natChars n ++ ['"']

/-- Serialized form of an optional identifier. -/
def serializeOptId : Option Nat → List Char
  | none => str "null"
  | some n => serializeId n

/-- Serialization of the checkpoint record, following the serde field
order of `struct State`.  The iteration order of the Rust `HashSet` is
unspecified; we serialize `channels_complete` in list order (all claims
below use sets of at most one element, where the orders agree). -/
def serializeState (s : State) : List Char :=
  str "\x7b\"current_guild\":" ++ serializeId s.current_guild ++
  str ",\"current_channel\":" ++ serializeOptId s.current_channel ++
  str ",\"last_message\":" ++ serializeOptId s.last_message ++
  str ",\"channels_complete\":[" ++
    joinComma (s.channels_complete.map serializeId) ++ str "]\x7d"

/-- Serialized form of one opaque message record (see header note). -/
def serializeMsg (m : MessageId) : List Char := natChars m

/-- One write of `data` into a file that currently holds `old`, starting
at offset 0 and without truncation: this is the effect of
`save_active_state` (`main.rs` lines 33-42), whose `OpenOptions` set
`write` and `create` but not `truncate`, so bytes of a longer previous
content beyond the new data survive. -/
def save_active_state (old : Option (List Char)) (s : State) : List Char :=
  let data := serializeState s
  let base := old.getD []
  data ++ base.drop data.length

/-- Result of loading the checkpoint file.  The file argument is `none`
when the file is missing, `some none` when present but not parseable as
a `State`, and `some (some s)` when it parses to `s`. -/
inductive LoadRes where
  | ioErr : LoadRes
  | panicked : LoadRes
  | ok : State → LoadRes
deriving Repr, DecidableEq

/-- `get_active_state` (`main.rs` lines 26-31): a missing file makes the
`open` call return an io error; a present but unparsable file hits the
`expect("Unable to parse state file")`, i.e. a panic, not an error
return. -/
def get_active_state : Option (Option State) → LoadRes
  | none => LoadRes.ioErr
  | some none => LoadRes.panicked
  | some (some s) => LoadRes.ok s

/-- Outcome of the startup sequence of `main` (lines 101-110). -/
inductive StartRes where
  | panicked : StartRes
  | mismatch : StartRes
  | running : State → StartRes
deriving Repr, DecidableEq

/-- Fresh progress record created when no checkpoint loads
(`main.rs` lines 101-106). -/
def freshState (g : GuildId) : State :=
  ⟨g, none, none, []⟩

/-- Startup state selection (`main.rs` lines 101-108):
`get_active_state().unwrap_or_else(fresh)` followed by the
`assert_eq!(guild_id, state.current_guild)` guard.  Only the io-error
case of `get_active_state` is converted to a fresh record; the parse
panic propagates. -/
def startupState (guild_id : GuildId) (file : Option (Option State)) : StartRes :=
  match get_active_state file with
  | LoadRes.ioErr => StartRes.running (freshState guild_id)
  | LoadRes.panicked => StartRes.panicked
  | LoadRes.ok s =>
      if guild_id = s.current_guild then StartRes.running s else StartRes.mismatch

/-- Channel kinds distinguished by the eligibility filter
(`main.rs` lines 142-148). -/
inductive CKind where
  | guildText : CKind
  | guildPublicThread : CKind
  | guildPrivateThread : CKind
  | other : CKind
deriving Repr, DecidableEq

/-- A work item: a channel with its kind. -/
structure Chan where
  id : ChannelId
  kind : CKind
deriving Repr, DecidableEq

/-- Result of one pager call (`Result<Vec<Message>, _>` with an opaque
error). -/
inductive FetchRes where
  | err : FetchRes
  | ok : List MessageId → FetchRes
deriving Repr, DecidableEq

/-- The remote side: each channel's full message history (newest first,
identifiers strictly decreasing for a real guild), a fault model saying
which page fetches fail, and the archived-thread listing. -/
structure Env where
  hist : ChannelId → List MessageId
  fetchFails : ChannelId → Option MessageId → Bool
  archivedThreads : ChannelId → Except Unit (List Chan)

/-- Page selection of the remote API: with no cursor, the newest
`MESSAGE_CHUNK_SIZE` messages; with cursor `c` (the `before` request
parameter), the newest `MESSAGE_CHUNK_SIZE` messages strictly older
than `c`. -/
def fetchPageFromHistory (hist : List MessageId) : Option MessageId → List MessageId
  | none => hist.take MESSAGE_CHUNK_SIZE
  | some c => (hist.filter (fun m => decide (m < c))).take MESSAGE_CHUNK_SIZE

/-- `fetch_message_chunk` (`main.rs` lines 44-65): reads
`state.current_channel` through `expect` — `none` models the panic
branch — and requests one page `before state.last_message` when the
cursor is set. -/
def fetch_message_chunk (env : Env) (state : State) : Option FetchRes :=
  match state.current_channel with
  | none => none
  | some ch =>
      if env.fetchFails ch state.last_message then some FetchRes.err
      else some (FetchRes.ok (fetchPageFromHistory (env.hist ch) state.last_message))

/-- An open file: its content and the current write position.  The
program never opens the messages file with `append` or `truncate`, so
the position matters. -/
structure WFile where
  content : List Char
  pos : Nat
deriving Repr, DecidableEq

/-- One `write!`/`to_writer` call: overwrite at the current position and
advance it. -/
def wWrite (f : WFile) (s : List Char) : WFile :=
  ⟨f.content.take f.pos ++ s ++ f.content.drop (f.pos + s.length), f.pos + s.length⟩

/-- Observable events of a run: the metadata write, writes to the
messages file, checkpoint saves, and pager calls. -/
inductive Ev where
  | writeMeta : ChannelId → Ev
  | write : List Char → Ev
  | save : State → Ev
  | fetch : Option ChannelId → Option MessageId → FetchRes → Ev
deriving Repr, DecidableEq

/-- The record-writing loop (`main.rs` lines 210-215): each record is
written, with a separating comma after every record but the last. -/
def writeRecords (file : WFile) : List MessageId → WFile × List Ev
  | [] => (file, [])
  | [m] => (wWrite file (serializeMsg m), [Ev.write (serializeMsg m)])
  | m :: s :: rest =>
      let r := writeRecords (wWrite (wWrite file (serializeMsg m)) (str ",")) (s :: rest)
      (r.1, Ev.write (serializeMsg m) :: Ev.write (str ",") :: r.2)

/-- Result of the inner paging loop. -/
structure LoopRes where
  state : State
  msgs : List MessageId
  file : WFile
  trace : List Ev
  panicked : Bool
deriving Repr, DecidableEq

/-- The inner paging loop (`main.rs` lines 185-219).  `msgs` is the
`messages` vector living outside the loop; the loop runs while the
cursor is unset or the previous chunk was full.  A fetch error breaks
out; an empty chunk breaks out; otherwise the chunk is written (with a
leading comma when a previous chunk exists, signalled by the cursor
being set), the cursor advances to the oldest message of the chunk, and
the checkpoint is saved.  `fuel` bounds the number of iterations so the
definition is total; all theorems below either hold for every fuel or
supply enough of it. -/
def pageLoop (env : Env) (fuel : Nat) (state : State) (msgs : List MessageId)
    (file : WFile) : LoopRes :=
  match fuel with
  | 0 => ⟨state, msgs, file, [], false⟩
  | fuel + 1 =>
    if state.last_message = none ∨ msgs.length = MESSAGE_CHUNK_SIZE then
      match fetch_message_chunk env state with
      | none => ⟨state, msgs, file, [], true⟩
      | some FetchRes.err =>
          ⟨state, msgs, file,
            [Ev.fetch state.current_channel state.last_message FetchRes.err], false⟩
      | some (FetchRes.ok page) =>
          let fetchEv := Ev.fetch state.current_channel state.last_message (FetchRes.ok page)
          if page.length = 0 then
            ⟨state, page, file, [fetchEv], false⟩
          else
            let sep : WFile × List Ev :=
              if state.last_message.isSome then
                (wWrite file (str ","), [Ev.write (str ",")])
              else (file, [])
            let written := writeRecords sep.1 page
            let state1 := { state with last_message := page.getLast? }
            let rest := pageLoop env fuel state1 page written.1
            ⟨rest.state, rest.msgs, rest.file,
              fetchEv :: sep.2 ++ written.2 ++ Ev.save state1 :: rest.trace,
              rest.panicked⟩
    else ⟨state, msgs, file, [], false⟩

/-- How channel processing ends: normally, by a propagated io error
(`?` on a file open), or by a panic. -/
inductive COutcome where
  | ok : COutcome
  | ioError : COutcome
  | panicked : COutcome
deriving Repr, DecidableEq

/-- Result of processing one popped channel. -/
structure ChanResult where
  outcome : COutcome
  state : State
  msgs : List MessageId
  file : WFile
  metaWritten : Bool
  trace : List Ev
deriving Repr, DecidableEq

/-- Code shared by both open branches (`main.rs` lines 183-223): the
checkpoint save after opening, the paging loop, then the closing `]`,
the insertion into `channels_complete` and the final save.  On a panic
inside the loop nothing after it runs. -/
def processChannelCont (env : Env) (fuel : Nat) (ch : ChannelId) (state : State)
    (msgsIn : List MessageId) (file : WFile) (metaWritten : Bool)
    (openTrace : List Ev) : ChanResult :=
  let r := pageLoop env fuel state msgsIn file
  if r.panicked then
    ⟨COutcome.panicked, r.state, r.msgs, r.file, metaWritten,
      openTrace ++ Ev.save state :: r.trace⟩
  else
    let file1 := wWrite r.file (str "]")
    let state1 := { r.state with
      channels_complete := insertChannel r.state.channels_complete ch }
    ⟨COutcome.ok, state1, r.msgs, file1, metaWritten,
      openTrace ++ Ev.save state :: r.trace ++ [Ev.write (str "]"), Ev.save state1]⟩

/-- Processing of one popped channel (`main.rs` lines 163-223).  If the
channel differs from `current_channel`, the fresh branch points the
checkpoint at it, resets the cursor, writes the metadata file with
`create_new` (an existing file is an io error), creates the messages
file with `create_new` (likewise) and primes it with `[`.  Otherwise
the resume branch reopens the existing messages file in plain write
mode: position 0, no truncation (a missing file is an io error). -/
def processChannel (env : Env) (fuel : Nat) (stateIn : State) (ch : ChannelId)
    (msgsIn : List MessageId) (metaExists : Bool) (fileIn : Option (List Char)) :
    ChanResult :=
  if stateIn.current_channel ≠ some ch then
    let state := { stateIn with current_channel := some ch, last_message := none }
    if metaExists then
      ⟨COutcome.ioError, state, msgsIn, ⟨[], 0⟩, false, []⟩
    else if fileIn.isSome then
      ⟨COutcome.ioError, state, msgsIn, ⟨[], 0⟩, true, [Ev.writeMeta ch]⟩
    else
      let file0 := wWrite ⟨[], 0⟩ (str "[")
      processChannelCont env fuel ch state msgsIn file0 true
        [Ev.writeMeta ch, Ev.write (str "[")]
  else
    match fileIn with
    | none => ⟨COutcome.ioError, stateIn, msgsIn, ⟨[], 0⟩, false, []⟩
    | some content =>
        processChannelCont env fuel ch stateIn msgsIn ⟨content, 0⟩ false []

/-- The on-disk output files: which channels have a metadata file, and
each channel's messages-file content. -/
structure FS where
  metas : List ChannelId
  files : List (ChannelId × List Char)
deriving Repr, DecidableEq

/-- Content of a channel's messages file, when it exists. -/
def FS.getFile (fs : FS) (ch : ChannelId) : Option (List Char) :=
  (fs.files.find? (fun p => decide (p.1 = ch))).map (fun p => p.2)

/-- Replace (or create) a channel's messages file. -/
def FS.setFile (fs : FS) (ch : ChannelId) (c : List Char) : FS :=
  ⟨fs.metas, (ch, c) :: fs.files.filter (fun p => decide (p.1 ≠ ch))⟩

/-- Record that a channel's metadata file now exists. -/
def FS.addMeta (fs : FS) (ch : ChannelId) : FS :=
  ⟨fs.metas ++ [ch], fs.files⟩

/-- How the outer loop ends. -/
inductive RunOutcome where
  | finished : RunOutcome
  | ioError : RunOutcome
  | panicked : RunOutcome
  | outOfFuel : RunOutcome
deriving Repr, DecidableEq

/-- Result of draining the work list. -/
structure RunResult where
  outcome : RunOutcome
  state : State
  fs : FS
  trace : List Ev
deriving Repr, DecidableEq

/-- Eligibility filter of `main.rs` lines 142-148: only plain text
channels and public/private threads are processed. -/
def eligible (k : CKind) : Bool :=
  decide (k = CKind.guildText) || decide (k = CKind.guildPublicThread) ||
    decide (k = CKind.guildPrivateThread)

/-- The outer drain loop (`main.rs` lines 141-232).  `Vec::pop` takes
the last element, so the work list is a stack; archived threads of a
text channel are appended and hence processed next (depth first).
Skips (wrong kind, already completed) emit no events.  A discovery
failure for archived threads is logged and ignored.  `pfuel` is the
fuel handed to each inner paging loop. -/
def drainLoop (env : Env) (fuel pfuel : Nat) (channels : List Chan) (state : State)
    (msgs : List MessageId) (fs : FS) : RunResult :=
  match fuel with
  | 0 => ⟨RunOutcome.outOfFuel, state, fs, []⟩
  | fuel + 1 =>
    match channels.getLast? with
    | none => ⟨RunOutcome.finished, state, fs, []⟩
    | some channel =>
      let channels := channels.dropLast
      if ¬ eligible channel.kind then
        drainLoop env fuel pfuel channels state msgs fs
      else if channel.id ∈ state.channels_complete then
        drainLoop env fuel pfuel channels state msgs fs
      else
        let channels :=
          if channel.kind = CKind.guildText then
            match env.archivedThreads channel.id with
            | Except.ok ts => channels ++ ts
            | Except.error _ => channels
          else channels
        let r := processChannel env pfuel state channel.id msgs
          (decide (channel.id ∈ fs.metas)) (fs.getFile channel.id)
        match r.outcome with
        | COutcome.ioError =>
            ⟨RunOutcome.ioError, r.state,
              if r.metaWritten then fs.addMeta channel.id else fs, r.trace⟩
        | COutcome.panicked =>
            ⟨RunOutcome.panicked, r.state,
              ((if r.metaWritten then fs.addMeta channel.id else fs).setFile
                channel.id r.file.content), r.trace⟩
        | COutcome.ok =>
            let fs1 := (if r.metaWritten then fs.addMeta channel.id else fs).setFile
              channel.id r.file.content
            let rest := drainLoop env fuel pfuel channels r.state r.msgs fs1
            ⟨rest.outcome, rest.state, rest.fs, r.trace ++ rest.trace⟩

/-- Syntactic validity of a messages file as a complete JSON-style
array: an opening delimiter, a closing delimiter at the end, and in
between either nothing or comma-separated records that are nonempty and
free of delimiter characters. -/
def isValidArray (s : List Char) : Bool :=
  match s with
  | '[' :: rest =>
      (match rest.getLast? with
       | some c => decide (c = ']')
       | none => false) &&
      (let mid := rest.dropLast
       mid.isEmpty ||
         (mid.splitOn ',').all (fun r =>
           !r.isEmpty && r.all (fun c => decide (c ≠ '[') && decide (c ≠ ']') && decide (c ≠ ','))))
  | _ => false

/-- Successful pages carried by the pager events of a trace, in order. -/
def fetchPages : List Ev → List (List MessageId)
  | [] => []
  | Ev.fetch _ _ (FetchRes.ok p) :: rest => p :: fetchPages rest
  | _ :: rest => fetchPages rest

/-- Number of pager calls in a trace (successful or failed). -/
def countFetches : List Ev → Nat
  | [] => 0
  | Ev.fetch _ _ _ :: rest => countFetches rest + 1
  | _ :: rest => countFetches rest

/-- Whether an event is a pager call. -/
def isFetchEv : Ev → Bool
  | Ev.fetch _ _ _ => true
  | _ => false

/-- A real channel history: newest first, identifiers strictly
decreasing. -/
def StrictDescending (l : List MessageId) : Prop :=
  l.Pairwise (fun a b => b < a)

instance (l : List MessageId) : Decidable (StrictDescending l) :=
  inferInstanceAs (Decidable (l.Pairwise _))

/-- An environment with no fetch faults and no archived threads,
determined by the channel histories alone. -/
def pureEnv (h : ChannelId → List MessageId) : Env :=
  ⟨h, fun _ _ => false, fun _ => Except.ok []⟩

set_option maxRecDepth 100000

/-! Concrete scenarios used by the claim theorems below. -/

/-- Environment for the fetch-error scenario: channel histories exist
but every page fetch fails. -/
def c1Env : Env := ⟨fun _ => [9, 8], fun _ _ => true, fun _ => Except.ok []⟩

/-- Environment with empty histories and no faults. -/
def c3Env : Env := pureEnv (fun _ => [])

/-- A history of 102 messages, newest first: ids 102 down to 1. -/
def c2Hist : List MessageId := (List.range 102).map (fun i => 102 - i)

/-- Messages file left by a run that wrote the first full page (ids 102
down to 3) and then died: opening delimiter plus 100 records, no
closing delimiter. -/
def c2File : List Char := str "[" ++ joinComma ((c2Hist.take 100).map serializeMsg)

/-- Fault-free environment over `c2Hist`. -/
def c2Env : Env := pureEnv (fun _ => c2Hist)

/-- Checkpoint left by that interrupted run: channel 5 in flight,
cursor at message 3 (the oldest fetched so far), messages 2 and 1 still
unread. -/
def c2State0 : State := ⟨1, some 5, some 3, []⟩

/-- On-disk outputs of the interrupted run. -/
def c2FS0 : FS := ⟨[5], [(5, c2File)]⟩

/-- Environment for the reopen scenario: two messages older than the
checkpointed cursor remain unread. -/
def c4Env : Env := pureEnv (fun _ => [2, 1])

/-- Checkpoint whose serialization is long (large cursor value). -/
def c8s1 : State := ⟨1, some 5, some 111111111111, []⟩

/-- Checkpoint whose serialization is shorter (cursor cleared). -/
def c8s2 : State := ⟨1, some 5, none, []⟩

/-- C1: the claim says a channel whose inner paging loop ends on a
page-fetch error is not added to `channels_complete`.  The code breaks
out of the loop on the error but then falls through to the closing
code, which writes `]` and inserts the channel into
`channels_complete`: at the failing input (fresh channel 5, first fetch
fails, history nonempty) the channel ends up marked complete, with an
empty array written, so a later run skips it and its messages are lost. -/
theorem c1_fetch_error_still_marks_complete :
    (processChannel c1Env 5 ⟨1, none, none, []⟩ 5 [] false none).outcome = COutcome.ok ∧
    5 ∈ (processChannel c1Env 5 ⟨1, none, none, []⟩ 5 [] false none).state.channels_complete ∧
    Ev.fetch (some 5) none FetchRes.err ∈
      (processChannel c1Env 5 ⟨1, none, none, []⟩ 5 [] false none).trace ∧
    (processChannel c1Env 5 ⟨1, none, none, []⟩ 5 [] false none).file.content = str "[]" := by
  decide

/-- C2: the claim says a resumed run (checkpoint with `current_channel`
and cursor set) fetches at least one page older than the cursor before
closing the channel.  At the failing input — channel 5 popped with the
checkpoint pointing at it, cursor at message 3, messages 2 and 1 still
available — the inner loop's entry condition
`last_message.is_none() || messages.len() == 100` is false (the cursor
is set and the in-memory buffer from this run is empty), so the loop
body never runs: the trace contains no pager call at all and the
channel is closed and marked complete with its remaining messages
unread. -/
theorem c2_resume_fetches_no_page :
    (drainLoop c2Env 2 2 [⟨5, CKind.guildPublicThread⟩] c2State0 [] c2FS0).outcome =
      RunOutcome.finished ∧
    5 ∈ (drainLoop c2Env 2 2 [⟨5, CKind.guildPublicThread⟩] c2State0 [] c2FS0).state.channels_complete ∧
    (drainLoop c2Env 2 2 [⟨5, CKind.guildPublicThread⟩] c2State0 [] c2FS0).trace.filter isFetchEv = [] := by
  decide

/-- C3: the claim says that whenever a channel is inserted into
`channels_complete`, `current_channel` is cleared in the same
checkpointed transition, so no persisted record has `current_channel`
inside `channels_complete`.  The code never clears `current_channel`:
after completing fresh channel 7 the final saved record still has
`current_channel = some 7` while `7 ∈ channels_complete`, and that very
record is the argument of the last save. -/
theorem c3_complete_does_not_clear_current :
    (processChannel c3Env 2 ⟨1, none, none, []⟩ 7 [] false none).outcome = COutcome.ok ∧
    (processChannel c3Env 2 ⟨1, none, none, []⟩ 7 [] false none).state.current_channel = some 7 ∧
    7 ∈ (processChannel c3Env 2 ⟨1, none, none, []⟩ 7 [] false none).state.channels_complete ∧
    Ev.save (processChannel c3Env 2 ⟨1, none, none, []⟩ 7 [] false none).state ∈
      (processChannel c3Env 2 ⟨1, none, none, []⟩ 7 [] false none).trace := by
  decide

/-- C4: the claim says the mid-resume reopen positions the writer after
the previously written bytes and leaves them unchanged.  The resume
branch opens the file with write mode only (no append), so the position
is 0 and the next write lands on top of the first byte: with existing
content `[42`, the run (which fetches nothing, see C2) writes its
closing `]` at offset 0 and the file becomes `]42` — the old content is
not even a prefix of the result.  The metadata file is indeed left
alone and no second `[` is written, but the append positioning fails. -/
theorem c4_reopen_overwrites_existing_bytes :
    (processChannel c4Env 2 ⟨1, some 5, some 3, []⟩ 5 [] true (some (str "[42"))).outcome =
      COutcome.ok ∧
    (processChannel c4Env 2 ⟨1, some 5, some 3, []⟩ 5 [] true (some (str "[42"))).file.content =
      str "]42" ∧
    (str "[42").isPrefixOf
      (processChannel c4Env 2 ⟨1, some 5, some 3, []⟩ 5 [] true (some (str "[42"))).file.content =
      false := by
  decide

/-- C5: the claim says a messages file is a syntactically complete
array exactly when its channel is in `channels_complete`, and an
interrupted file differs from a valid array only by the missing closing
delimiter.  After the resumed run of the C2 scenario, channel 5 is in
`channels_complete` but its file starts with `]` (the closing delimiter
was written at offset 0 over the opening one), so it is not a valid
array: the equivalence fails, and the file is corrupted rather than
merely unterminated. -/
theorem c5_completed_channel_file_invalid :
    5 ∈ (drainLoop c2Env 2 2 [⟨5, CKind.guildPublicThread⟩] c2State0 [] c2FS0).state.channels_complete ∧
    isValidArray
      (((drainLoop c2Env 2 2 [⟨5, CKind.guildPublicThread⟩] c2State0 [] c2FS0).fs.getFile 5).getD []) =
      false := by
  decide

/-- C6 counterexample: the claim says a present-but-corrupt checkpoint
file is treated like a missing one, with the run proceeding fresh.  At
guild 1 with a corrupt file, startup panics (the `expect` inside
`get_active_state`) instead of producing the fresh record. -/
theorem c6_corrupt_checkpoint_panics :
    startupState 1 (some none) = StartRes.panicked ∧
    startupState 1 (some none) ≠ StartRes.running (freshState 1) := by
  decide

/-- C6 (amended): loading a missing checkpoint file proceeds as a fresh
run with a newly created Progress Record (empty `channels_complete`, no
`current_channel`, no cursor); loading a present but corrupt checkpoint
file panics (the process aborts) rather than proceeding as a fresh
run. -/
theorem c6_missing_is_fresh_corrupt_aborts :
    ∀ g : GuildId,
      startupState g none = StartRes.running (freshState g) ∧
      startupState g (some none) = StartRes.panicked :=
  fun _ => ⟨rfl, rfl⟩

/-- C8: the claim says every save fully rewrites the checkpoint file so
that its content is exactly the serialization of the record saved.
`save_active_state` opens the file with `write` and `create` but not
`truncate`, so a save whose serialization is shorter than the previous
one leaves the tail of the old content in place: saving `c8s1` (long
cursor value) and then `c8s2` (cursor cleared) leaves a file that is
not the serialization of `c8s2` — it carries residual bytes of the
first serialization, and is not even valid JSON. -/
theorem c8_save_leaves_residual_bytes :
    save_active_state (some (save_active_state none c8s1)) c8s2 ≠ serializeState c8s2 ∧
    save_active_state (some (save_active_state none c8s1)) c8s2 =
      serializeState c8s2 ++ str "plete\":[]\x7d" := by
  decide

/-! Structural lemmas about the paging loop, shared by several claims. -/

/-- Every event emitted by the record-writing loop is a file write. -/
theorem writeRecords_events (l : List MessageId) :
    ∀ (f : WFile), ∀ e ∈ (writeRecords f l).2, ∃ s, e = Ev.write s := by
  induction l with
  | nil => intro f e he; simp [writeRecords] at he
  | cons m tl ih =>
    cases tl with
    | nil =>
      intro f e he
      simp [writeRecords] at he
      exact ⟨_, he⟩
    | cons s rest =>
      intro f e he
      simp only [writeRecords, List.mem_cons] at he
      rcases he with rfl | rfl | he
      · exact ⟨_, rfl⟩
      · exact ⟨_, rfl⟩
      · exact ih _ e he

/-- The inner paging loop never reassigns `current_channel`, never hits
the panic branch of the pager's `expect` when a channel is assigned,
and every pager call it makes carries that assigned channel. -/
theorem pageLoop_ok (env : Env) (ch : ChannelId) :
    ∀ (fuel : Nat) (state : State) (msgs : List MessageId) (file : WFile),
      state.current_channel = some ch →
      (pageLoop env fuel state msgs file).panicked = false ∧
      (pageLoop env fuel state msgs file).state.current_channel = some ch ∧
      (∀ oc cur res, Ev.fetch oc cur res ∈ (pageLoop env fuel state msgs file).trace →
        oc = some ch) := by
  intro fuel
  induction fuel with
  | zero => intro state msgs file h; simp [pageLoop, h]
  | succ n ih =>
    intro state msgs file h
    by_cases hcond : state.last_message = none ∨ msgs.length = MESSAGE_CHUNK_SIZE
    · cases hFail : env.fetchFails ch state.last_message with
      | true =>
        have hfe : fetch_message_chunk env state = some FetchRes.err := by
          simp [fetch_message_chunk, h, hFail]
        simp only [pageLoop, if_pos hcond, hfe]
        refine ⟨trivial, h, ?_⟩
        intro oc cur res hmem
        simp only [List.mem_singleton] at hmem
        injection hmem with h1 h2 h3
        rw [h1, h]
      | false =>
        have hfe : fetch_message_chunk env state =
            some (FetchRes.ok (fetchPageFromHistory (env.hist ch) state.last_message)) := by
          simp [fetch_message_chunk, h, hFail]
        simp only [pageLoop, if_pos hcond, hfe]
        by_cases hz : (fetchPageFromHistory (env.hist ch) state.last_message).length = 0
        · simp only [if_pos hz]
          refine ⟨trivial, h, ?_⟩
          intro oc cur res hmem
          simp only [List.mem_singleton] at hmem
          injection hmem with h1 h2 h3
          rw [h1, h]
        · simp only [if_neg hz]
          have h1 : (State.mk state.current_guild state.current_channel
              (fetchPageFromHistory (env.hist ch) state.last_message).getLast?
              state.channels_complete).current_channel = some ch := h
          obtain ⟨hp, hc, hf⟩ := ih _ (fetchPageFromHistory (env.hist ch) state.last_message) _ h1
          refine ⟨hp, hc, ?_⟩
          intro oc cur res hmem
          simp only [List.mem_cons, List.mem_append] at hmem
          rcases hmem with ((heq | hA) | hB) | hrest
          · injection heq with h1 h2 h3
            rw [h1, h]
          · revert hA
            split <;> intro hA <;> simp at hA
          · obtain ⟨s, hs⟩ := writeRecords_events _ _ _ hB
            exact absurd hs (by simp)
          · rcases hrest with hsave | hD
            · exact absurd hsave (by simp)
            · exact hf oc cur res hD
    · simp [pageLoop, if_neg hcond, h]

/-- After a successful open, channel processing always completes
normally (no panic), and every pager call carries the processed
channel, provided the checkpoint points at that channel and the open
emitted no pager events. -/
theorem processChannelCont_no_panic (env : Env) (fuel : Nat) (ch : ChannelId)
    (state : State) (msgsIn : List MessageId) (file : WFile) (metaW : Bool)
    (openT : List Ev) (h : state.current_channel = some ch)
    (hOpen : ∀ e ∈ openT, isFetchEv e = false) :
    (processChannelCont env fuel ch state msgsIn file metaW openT).outcome = COutcome.ok ∧
    ∀ oc cur res,
      Ev.fetch oc cur res ∈ (processChannelCont env fuel ch state msgsIn file metaW openT).trace →
        oc = some ch := by
  obtain ⟨hp, hc, hf⟩ := pageLoop_ok env ch fuel state msgsIn file h
  simp only [processChannelCont, hp]
  refine ⟨by simp, ?_⟩
  intro oc cur res hmem
  simp at hmem
  rcases hmem with hO | hD
  · have := hOpen _ hO
    simp [isFetchEv] at this
  · exact hf oc cur res hD
/-- C10: every call to `fetch_message_chunk` happens in a state whose
`current_channel` is set — the fresh branch assigns it before the
paging loop, and the resume branch has it equal to the popped channel
by its branch condition — so the panic branch of the `expect` on
`current_channel` inside `fetch_message_chunk` is unreachable: channel
processing never ends in a panic, and every pager call in the trace
carries the popped channel. -/
theorem c10_expect_panic_unreachable (env : Env) (fuel : Nat) (stateIn : State)
    (ch : ChannelId) (msgsIn : List MessageId) (metaExists : Bool)
    (fileIn : Option (List Char)) :
    (processChannel env fuel stateIn ch msgsIn metaExists fileIn).outcome ≠
      COutcome.panicked ∧
    ∀ oc cur res,
      Ev.fetch oc cur res ∈ (processChannel env fuel stateIn ch msgsIn metaExists fileIn).trace →
        oc = some ch := by
  unfold processChannel
  split
  · split
    · simp
    · split
      · constructor
        · simp
        · intro oc cur res hmem
          simp at hmem
      · have hres := processChannelCont_no_panic env fuel ch
          { stateIn with current_channel := some ch, last_message := none } msgsIn
          (wWrite ⟨[], 0⟩ (str "[")) true [Ev.writeMeta ch, Ev.write (str "[")] rfl
          (by intro e he; simp at he; rcases he with h1 | h1 <;> rw [h1] <;> rfl)
        refine ⟨?_, hres.2⟩
        rw [hres.1]
        simp
  · rename_i hcc
    rw [not_not] at hcc
    split
    · simp
    · rename_i content
      have hres := processChannelCont_no_panic env fuel ch stateIn msgsIn ⟨content, 0⟩ false [] hcc
        (by intro e he; cases he)
      refine ⟨?_, hres.2⟩
      rw [hres.1]
      simp

/-- Every record of a chunk is written (as its own write event) by the
record-writing loop. -/
theorem writeRecords_mem_write (l : List MessageId) :
    ∀ (f : WFile), ∀ m ∈ l, Ev.write (serializeMsg m) ∈ (writeRecords f l).2 := by
  induction l with
  | nil => intro f m hm; cases hm
  | cons a tl ih =>
    cases tl with
    | nil =>
      intro f m hm
      simp at hm
      subst hm
      simp [writeRecords]
    | cons s rest =>
      intro f m hm
      rcases List.mem_cons.mp hm with rfl | hm
      · simp [writeRecords]
      · simp only [writeRecords, List.mem_cons]
        right; right
        exact ih _ m hm

/-- Splitting a save event out of a concatenation whose first part
contains no save events. -/
theorem append_save_split :
    ∀ (A B pre suf : List Ev) (st : State),
      (∀ e ∈ A, ∀ s, e ≠ Ev.save s) →
      A ++ B = pre ++ Ev.save st :: suf →
      ∃ pre2, B = pre2 ++ Ev.save st :: suf ∧ pre = A ++ pre2 := by
  intro A
  induction A with
  | nil =>
    intro B pre suf st _ h
    exact ⟨pre, h, rfl⟩
  | cons a A ih =>
    intro B pre suf st hA h
    cases pre with
    | nil =>
      simp only [List.cons_append, List.nil_append] at h
      injection h with h1 h2
      exact absurd h1 (hA a (by simp) st)
    | cons p pre =>
      simp only [List.cons_append] at h
      injection h with h1 h2
      obtain ⟨pre2, hB, hpre⟩ := ih B pre suf st
        (fun e he s => hA e (List.mem_cons_of_mem _ he) s) h2
      exact ⟨pre2, hB, by rw [← h1, hpre]; rfl⟩

/-- Locating a save event inside one iteration block of the paging
loop: the block is a pager event, separator and record writes, the
block's own save, and then the rest of the trace.  A save event found
in it is either the block's own save (with everything written before
it) or lies in the rest. -/
theorem trace_block_saves (fetchEv : Ev) (sepEvs wrEvs rest pre suf : List Ev)
    (st state1 : State)
    (hfetch : ∀ s, fetchEv ≠ Ev.save s)
    (hsep : ∀ e ∈ sepEvs, ∀ s, e ≠ Ev.save s)
    (hwr : ∀ e ∈ wrEvs, ∀ s, e ≠ Ev.save s)
    (heq : fetchEv :: sepEvs ++ wrEvs ++ Ev.save state1 :: rest =
      pre ++ Ev.save st :: suf) :
    (st = state1 ∧ suf = rest ∧ pre = fetchEv :: sepEvs ++ wrEvs) ∨
    (∃ pre4, rest = pre4 ++ Ev.save st :: suf ∧
      pre = fetchEv :: sepEvs ++ wrEvs ++ Ev.save state1 :: pre4) := by
  cases pre with
  | nil =>
    simp only [List.cons_append, List.nil_append] at heq
    injection heq with h1 h2
    exact absurd h1 (hfetch st)
  | cons p pre =>
    simp only [List.cons_append] at heq
    injection heq with h1 h2
    rw [List.append_assoc] at h2
    obtain ⟨pre2, hB2, hpre2⟩ :=
      append_save_split sepEvs (wrEvs ++ Ev.save state1 :: rest) pre suf st hsep h2
    obtain ⟨pre3, hB3, hpre3⟩ :=
      append_save_split wrEvs (Ev.save state1 :: rest) pre2 suf st hwr hB2
    cases pre3 with
    | nil =>
      simp only [List.nil_append] at hB3
      injection hB3 with h3 h4
      injection h3 with h5
      left
      refine ⟨h5.symm, h4.symm, ?_⟩
      rw [← h1, hpre2, hpre3]
      simp
    | cons q pre4 =>
      simp only [List.cons_append] at hB3
      injection hB3 with h3 h4
      right
      refine ⟨pre4, h4, ?_⟩
      rw [← h1, hpre2, hpre3, ← h3]
      simp

/-- A list with a save event in it is nonempty. -/
theorem append_save_ne_nil (pre suf : List Ev) (st : State) :
    pre ++ Ev.save st :: suf ≠ [] := by
  intro h
  have := congrArg List.length h
  simp at this

/-- Save-ordering discipline of the paging loop: it never touches the
completed set; its final cursor, if set, was either inherited or names
a record already written inside the loop's trace; and every checkpoint
save it performs persists the untouched completed set and a cursor
whose record was written strictly earlier in the trace (unless the
cursor was inherited from before the loop). -/
theorem pageLoop_saves (env : Env) :
    ∀ (fuel : Nat) (state : State) (msgs : List MessageId) (file : WFile),
      (pageLoop env fuel state msgs file).state.channels_complete =
        state.channels_complete ∧
      (∀ c, (pageLoop env fuel state msgs file).state.last_message = some c →
        Ev.write (serializeMsg c) ∈ (pageLoop env fuel state msgs file).trace ∨
          state.last_message = some c) ∧
      (∀ pre st suf, (pageLoop env fuel state msgs file).trace = pre ++ Ev.save st :: suf →
        st.channels_complete = state.channels_complete ∧
        ∀ c, st.last_message = some c →
          Ev.write (serializeMsg c) ∈ pre ∨ state.last_message = some c) := by
  intro fuel
  induction fuel with
  | zero =>
    intro state msgs file
    refine ⟨rfl, fun c hc => Or.inr hc, ?_⟩
    intro pre st suf hT
    exact absurd hT.symm (append_save_ne_nil pre suf st)
  | succ n ih =>
    intro state msgs file
    by_cases hcond : state.last_message = none ∨ msgs.length = MESSAGE_CHUNK_SIZE
    · rcases hfe : fetch_message_chunk env state with _ | fr
      · simp only [pageLoop, if_pos hcond, hfe]
        refine ⟨by simp, fun c hc => Or.inr hc, ?_⟩
        intro pre st suf hT
        exact absurd hT.symm (append_save_ne_nil pre suf st)
      · cases fr with
        | err =>
          simp only [pageLoop, if_pos hcond, hfe]
          refine ⟨by simp, fun c hc => Or.inr hc, ?_⟩
          intro pre st suf hT
          cases pre with
          | nil =>
            injection hT with h1 h2
            exact absurd h1 (by simp)
          | cons p pre =>
            injection hT with h1 h2
            exact absurd h2.symm (append_save_ne_nil pre suf st)
        | ok page =>
          by_cases hz : page.length = 0
          · simp only [pageLoop, if_pos hcond, hfe, if_pos hz]
            refine ⟨by simp, fun c hc => Or.inr hc, ?_⟩
            intro pre st suf hT
            cases pre with
            | nil =>
              injection hT with h1 h2
              exact absurd h1 (by simp)
            | cons p pre =>
              injection hT with h1 h2
              exact absurd h2.symm (append_save_ne_nil pre suf st)
          · simp only [pageLoop, if_pos hcond, hfe, if_neg hz]
            obtain ⟨ih1, ih2, ih3⟩ := ih (State.mk state.current_guild state.current_channel
              page.getLast? state.channels_complete) page
              (writeRecords (if state.last_message.isSome then
                (wWrite file (str ","), [Ev.write (str ",")]) else (file, [])).1 page).1
            have hpageLast : ∀ c, page.getLast? = some c →
                Ev.write (serializeMsg c) ∈ (writeRecords (if state.last_message.isSome then
                  (wWrite file (str ","), [Ev.write (str ",")]) else (file, [])).1 page).2 := by
              intro c hc
              exact writeRecords_mem_write page _ c (List.mem_of_mem_getLast? hc)
            refine ⟨ih1, ?_, ?_⟩
            · intro c hc
              rcases ih2 c hc with hmem | hinh
              · left
                simp only [List.mem_cons, List.mem_append]
                tauto
              · have hw := hpageLast c hinh
                left
                simp only [List.mem_cons, List.mem_append]
                tauto
            · intro pre st suf hT
              have hsep : ∀ e ∈ (if state.last_message.isSome then
                  (wWrite file (str ","), [Ev.write (str ",")]) else (file, ([] : List Ev))).2,
                  ∀ s, e ≠ Ev.save s := by
                split
                · intro e he s
                  simp at he
                  subst he
                  simp
                · intro e he s
                  simp at he
              have hwr : ∀ e ∈ (writeRecords (if state.last_message.isSome then
                  (wWrite file (str ","), [Ev.write (str ",")]) else (file, [])).1 page).2,
                  ∀ s, e ≠ Ev.save s := by
                intro e he s
                obtain ⟨t, ht⟩ := writeRecords_events _ _ _ he
                subst ht
                simp
              rcases trace_block_saves _ _ _ _ pre suf st _ (by intro s; simp) hsep hwr hT with
                ⟨hst, hsuf, hpre⟩ | ⟨pre4, hrest, hpre⟩
              · subst hst
                refine ⟨rfl, ?_⟩
                intro c hc
                have hw := hpageLast c hc
                left
                rw [hpre]
                simp only [List.mem_cons, List.mem_append]
                tauto
              · obtain ⟨hc1, hc2⟩ := ih3 pre4 st suf hrest
                refine ⟨hc1, ?_⟩
                intro c hc
                rcases hc2 c hc with hmem | hinh
                · left
                  rw [hpre]
                  simp only [List.mem_cons, List.mem_append]
                  tauto
                · have hw := hpageLast c hinh
                  left
                  rw [hpre]
                  simp only [List.mem_cons, List.mem_append]
                  tauto
    · simp only [pageLoop, if_neg hcond]
      refine ⟨by simp, fun c hc => Or.inr hc, ?_⟩
      intro pre st suf hT
      exact absurd hT.symm (append_save_ne_nil pre suf st)

/-- Save-ordering discipline of one channel's processing after its
file is open: provided the channel enters with no cursor and is not yet
in the completed set, every checkpoint save in the trace that records
the channel as complete is preceded by the closing-delimiter write, and
every save that records a cursor is preceded by the write of that
cursor's record. -/
theorem processChannelCont_saves (env : Env) (fuel : Nat) (ch : ChannelId)
    (state : State) (msgsIn : List MessageId) (file : WFile) (metaW : Bool)
    (openT : List Ev)
    (hOpen : ∀ e ∈ openT, ∀ s, e ≠ Ev.save s)
    (hcur : state.last_message = none)
    (hnc : ch ∉ state.channels_complete) :
    ∀ pre st suf,
      (processChannelCont env fuel ch state msgsIn file metaW openT).trace =
        pre ++ Ev.save st :: suf →
      (ch ∈ st.channels_complete → Ev.write (str "]") ∈ pre) ∧
      (∀ c, st.last_message = some c → Ev.write (serializeMsg c) ∈ pre) := by
  obtain ⟨hl1, hl2, hl3⟩ := pageLoop_saves env fuel state msgsIn file
  have inner : ∀ pre2 st suf2,
      Ev.save state :: (pageLoop env fuel state msgsIn file).trace =
        pre2 ++ Ev.save st :: suf2 →
      (ch ∉ st.channels_complete) ∧
      (∀ c, st.last_message = some c →
        Ev.write (serializeMsg c) ∈ pre2) := by
    intro pre2 st suf2 h2
    cases pre2 with
    | nil =>
      injection h2 with ha hb
      injection ha with ha
      subst ha
      refine ⟨hnc, ?_⟩
      intro c hc
      rw [hcur] at hc
      cases hc
    | cons z pre3 =>
      injection h2 with ha hb
      obtain ⟨hc1, hc2⟩ := hl3 pre3 st suf2 hb
      constructor
      · rw [hc1]
        exact hnc
      · intro c hc
        rcases hc2 c hc with hmem | hinh
        · simp only [List.mem_cons]
          tauto
        · rw [hcur] at hinh
          cases hinh
  intro pre st suf hT
  by_cases hp : (pageLoop env fuel state msgsIn file).panicked = true
  · simp only [processChannelCont, if_pos hp] at hT
    obtain ⟨pre2, hB, hpre⟩ := append_save_split openT _ pre suf st hOpen hT
    obtain ⟨hni, hcu⟩ := inner pre2 st suf hB
    constructor
    · intro hch
      exact absurd hch hni
    · intro c hc
      have := hcu c hc
      rw [hpre]
      simp only [List.mem_append]
      tauto
  · simp only [processChannelCont, if_neg hp] at hT
    rcases List.append_eq_append_iff.mp hT with ⟨a, hpre, ha⟩ | ⟨b, hP, hb⟩
    · cases a with
      | nil =>
        simp only [List.append_nil] at hpre
        injection ha with ha1 ha2
        exact absurd ha1 (by simp)
      | cons w a2 =>
        injection ha with ha1 ha2
        cases a2 with
        | nil =>
          injection ha2 with hb1 hb2
          injection hb1 with hb1
          subst hb1
          constructor
          · intro _
            rw [hpre, ← ha1]
            simp
          · intro c hc
            rcases hl2 c hc with hmem | hinh
            · rw [hpre]
              simp only [List.mem_append, List.mem_cons]
              tauto
            · rw [hcur] at hinh
              cases hinh
        | cons y a3 =>
          injection ha2 with hb1 hb2
          exact absurd hb2.symm (append_save_ne_nil a3 suf st)
    · cases b with
      | nil =>
        simp only [List.append_nil] at hP
        rw [List.nil_append] at hb
        injection hb with hb1 hb2
        exact absurd hb1.symm (by simp)
      | cons y b2 =>
        injection hb with hb1 hb2
        rw [← hb1] at hP
        obtain ⟨pre2, hB, hpre⟩ := append_save_split openT
          (Ev.save state :: (pageLoop env fuel state msgsIn file).trace) pre b2 st hOpen hP
        obtain ⟨hni, hcu⟩ := inner pre2 st b2 hB
        constructor
        · intro hch
          exact absurd hch hni
        · intro c hc
          have := hcu c hc
          rw [hpre]
          simp only [List.mem_append]
          tauto

/-- C9: each save of the Progress Record happens only after the durable
output it records: in the trace of processing a fresh channel (one the
checkpoint does not already point at and that is not yet completed),
every checkpoint save that records the channel as complete comes after
the closing-delimiter write, and every save that records a cursor comes
after the write of that cursor's record — the page a cursor names is on
disk before the cursor is persisted, and the reverse order never
occurs. -/
theorem c9_checkpoint_after_output (env : Env) (fuel : Nat) (stateIn : State)
    (ch : ChannelId) (msgsIn : List MessageId) (metaExists : Bool)
    (fileIn : Option (List Char))
    (hfresh : stateIn.current_channel ≠ some ch)
    (hnc : ch ∉ stateIn.channels_complete) :
    ∀ pre st suf,
      (processChannel env fuel stateIn ch msgsIn metaExists fileIn).trace =
        pre ++ Ev.save st :: suf →
      (ch ∈ st.channels_complete → Ev.write (str "]") ∈ pre) ∧
      (∀ c, st.last_message = some c → Ev.write (serializeMsg c) ∈ pre) := by
  intro pre st suf hT
  rw [processChannel.eq_def] at hT
  rw [if_pos hfresh] at hT
  cases metaExists with
  | true =>
    rw [if_pos rfl] at hT
    exact absurd hT.symm (append_save_ne_nil pre suf st)
  | false =>
    rw [if_neg (by simp)] at hT
    cases fileIn with
    | some content =>
      rw [if_pos (show (some content).isSome = true from rfl)] at hT
      cases pre with
      | nil =>
        injection hT with h1 h2
        exact absurd h1 (by simp)
      | cons p pre2 =>
        injection hT with h1 h2
        exact absurd h2.symm (append_save_ne_nil pre2 suf st)
    | none =>
      rw [if_neg (by simp)] at hT
      exact processChannelCont_saves env fuel ch
        { stateIn with current_channel := some ch, last_message := none } msgsIn
        (wWrite ⟨[], 0⟩ (str "[")) true [Ev.writeMeta ch, Ev.write (str "[")]
        (by
          intro e he s
          simp only [List.mem_cons] at he
          rcases he with rfl | he
          · simp
          · simp at he
            subst he
            simp)
        rfl hnc pre st suf hT

/-- Environment for the C9 witness: one channel with a two-message
history, fetched in a single page. -/
def c9Env : Env := pureEnv (fun _ => [7, 3])

/-- Witness for C9 at a concrete input: fresh channel 5, empty starting
checkpoint, two messages. -/
theorem c9_checkpoint_after_output_witness :
    ((⟨1, none, none, []⟩ : State).current_channel ≠ some 5 ∧
      5 ∉ (⟨1, none, none, []⟩ : State).channels_complete) ∧
    (∀ pre st suf,
      (processChannel c9Env 3 ⟨1, none, none, []⟩ 5 [] false none).trace =
        pre ++ Ev.save st :: suf →
      (5 ∈ st.channels_complete → Ev.write (str "]") ∈ pre) ∧
      (∀ c, st.last_message = some c → Ev.write (serializeMsg c) ∈ pre)) :=
  ⟨⟨by decide, by decide⟩,
    c9_checkpoint_after_output c9Env 3 ⟨1, none, none, []⟩ 5 [] false none
      (by decide) (by decide)⟩

/-! Support lemmas for the paging/output-shape claim. -/

/-- Decimal digit characters. -/
def digitChars : List Char := str "0123456789"

/-- All characters produced by the digit renderer are decimal digits. -/
theorem natCharsAux_digits :
    ∀ (fuel n : Nat), ∀ c ∈ natCharsAux fuel n, c ∈ digitChars := by
  intro fuel
  induction fuel with
  | zero => intro n c hc; cases hc
  | succ k ih =>
    intro n c hc
    simp only [natCharsAux] at hc
    split at hc
    · simp only [List.mem_singleton] at hc
      subst hc
      rename_i h
      interval_cases n <;> decide
    · rcases List.mem_append.mp hc with hm | hm
      · exact ih _ c hm
      · simp only [List.mem_singleton] at hm
        subst hm
        have h10 : n % 10 < 10 := Nat.mod_lt _ (by omega)
        interval_cases h : n % 10 <;> decide

/-- All characters of a serialized message record are decimal digits. -/
theorem serializeMsg_digits (m : MessageId) : ∀ c ∈ serializeMsg m, c ∈ digitChars :=
  natCharsAux_digits (m + 1) m

/-- Characters of a comma-join of digit-only records are digits or
commas. -/
theorem joinComma_chars (rs : List (List Char))
    (hr : ∀ r ∈ rs, ∀ c ∈ r, c ∈ digitChars) :
    ∀ c ∈ joinComma rs, c ∈ ',' :: digitChars := by
  induction rs with
  | nil => intro c hc; cases hc
  | cons r tl ih =>
    cases tl with
    | nil =>
      intro c hc
      simp only [joinComma] at hc
      exact List.mem_cons_of_mem _ (hr r (by simp) c hc)
    | cons s rest =>
      intro c hc
      simp only [joinComma] at hc
      rcases List.mem_append.mp hc with hm | hm
      · exact List.mem_cons_of_mem _ (hr r (by simp) c hm)
      · rcases List.mem_cons.mp hm with rfl | hm
        · simp
        · exact ih (fun q hq => hr q (List.mem_cons_of_mem _ hq)) c hm

/-- Comma-join of a concatenation of two nonempty record lists. -/
theorem joinComma_append (a b : List (List Char)) (ha : a ≠ []) (hb : b ≠ []) :
    joinComma (a ++ b) = joinComma a ++ ',' :: joinComma b := by
  induction a with
  | nil => exact absurd rfl ha
  | cons r tl ih =>
    cases tl with
    | nil =>
      cases b with
      | nil => exact absurd rfl hb
      | cons s rest => simp [joinComma]
    | cons s rest =>
      have := ih (by simp)
      rw [List.cons_append] at this
      simp only [List.cons_append, joinComma]
      simp [this, List.append_assoc]

/-- In a strictly descending list, the last element of a prefix bounds
the prefix from below. -/
theorem getLast_le_of_descending (p : List MessageId) (c : MessageId) :
    p.Pairwise (fun a b => b < a) → p.getLast? = some c → ∀ x ∈ p, c ≤ x := by
  induction p with
  | nil => intro _ hc; cases hc
  | cons a tl ih =>
    intro hp hc x hx
    cases tl with
    | nil =>
      simp only [List.getLast?_singleton] at hc
      injection hc with hc
      simp only [List.mem_singleton] at hx
      subst hc
      subst hx
      exact le_refl x
    | cons b t =>
      rw [List.getLast?_cons_cons] at hc
      rcases List.mem_cons.mp hx with rfl | hx
      · have hmem : c ∈ b :: t := List.mem_of_mem_getLast? hc
        have hlt := (List.pairwise_cons.mp hp).1 c hmem
        simp only at hlt
        exact le_of_lt hlt
      · exact ih (List.pairwise_cons.mp hp).2 hc x hx

/-- Filtering a strictly descending list by "strictly below the last
element of its prefix" yields exactly the remainder. -/
theorem filter_lt_getLast (p rest : List MessageId) (c : MessageId)
    (hd : StrictDescending (p ++ rest)) (hc : p.getLast? = some c) :
    (p ++ rest).filter (fun m => decide (m < c)) = rest := by
  rw [List.filter_append]
  obtain ⟨hp, hrest, hcross⟩ := List.pairwise_append.mp hd
  have h1 : p.filter (fun m => decide (m < c)) = [] := by
    rw [List.filter_eq_nil_iff]
    intro a ha
    have hle := getLast_le_of_descending p c hp hc a ha
    simp only [decide_eq_true_eq]
    exact not_lt.mpr hle
  have h2 : rest.filter (fun m => decide (m < c)) = rest := by
    rw [List.filter_eq_self]
    intro a ha
    have hlt := hcross c (List.mem_of_mem_getLast? hc) a ha
    simp only at hlt
    simp only [decide_eq_true_eq]
    exact hlt
  rw [h1, h2, List.nil_append]

/-- A fetch whose cursor is the last message of the first `n` entries
of a descending history returns the next chunk of that history. -/
theorem fetch_after_block (hist : List MessageId) (n : Nat) (c : MessageId)
    (hd : StrictDescending hist) (hc : (hist.take n).getLast? = some c) :
    fetchPageFromHistory hist (some c) = (hist.drop n).take MESSAGE_CHUNK_SIZE := by
  have hsplit := List.take_append_drop n hist
  have hf := filter_lt_getLast (hist.take n) (hist.drop n) c (by rw [hsplit]; exact hd) hc
  rw [hsplit] at hf
  simp only [fetchPageFromHistory]
  rw [hf]

/-- Writing at the end of a file appends. -/
theorem wWrite_append (f : WFile) (s : List Char) (hp : f.pos = f.content.length) :
    wWrite f s = ⟨f.content ++ s, f.content.length + s.length⟩ := by
  simp only [wWrite, hp]
  rw [List.take_length, List.drop_eq_nil_of_le (by simp), List.append_nil]

/-- The record-writing loop, started at the end of a file, appends the
comma-join of the records and leaves the position at the new end. -/
theorem writeRecords_content (l : List MessageId) :
    ∀ f : WFile, f.pos = f.content.length →
      (writeRecords f l).1.content = f.content ++ joinComma (l.map serializeMsg) ∧
      (writeRecords f l).1.pos = (writeRecords f l).1.content.length := by
  induction l with
  | nil =>
    intro f hp
    simp [writeRecords, joinComma, hp]
  | cons m tl ih =>
    cases tl with
    | nil =>
      intro f hp
      simp only [writeRecords, List.map_cons, List.map_nil, joinComma]
      rw [wWrite_append f _ hp]
      simp
    | cons s rest =>
      intro f hp
      simp only [writeRecords, List.map_cons, joinComma]
      have h1 := wWrite_append f (serializeMsg m) hp
      rw [h1]
      have h2 := wWrite_append ⟨f.content ++ serializeMsg m,
        f.content.length + (serializeMsg m).length⟩ (str ",") (by simp)
      rw [h2]
      obtain ⟨hcon, hpos⟩ := ih ⟨(f.content ++ serializeMsg m) ++ str ",",
        (f.content ++ serializeMsg m).length + (str ",").length⟩ (by simp [Nat.add_assoc])
      refine ⟨?_, hpos⟩
      rw [hcon]
      simp [str, List.append_assoc]

/-- The conditional separator write before a chunk (`main.rs` lines
207-209), as a function: a comma is written only when the cursor is
already set. -/
def sepPair (state : State) (file : WFile) : WFile × List Ev :=
  if state.last_message.isSome then (wWrite file (str ","), [Ev.write (str ",")])
  else (file, [])

/-- The paging loop stops immediately when its entry condition fails
(cursor set and previous chunk not full). -/
theorem pageLoop_exit (env : Env) (fuel : Nat) (state : State) (msgs : List MessageId)
    (file : WFile)
    (hcond : ¬ (state.last_message = none ∨ msgs.length = MESSAGE_CHUNK_SIZE)) :
    pageLoop env fuel state msgs file = ⟨state, msgs, file, [], false⟩ := by
  cases fuel with
  | zero => rfl
  | succ n => simp only [pageLoop, if_neg hcond]

/-- One productive iteration of the paging loop in a fault-free
environment: the fetched nonempty chunk is written (with its separator)
and the loop continues with the advanced cursor. -/
theorem pageLoop_step_page (h : ChannelId → List MessageId) (ch : ChannelId) (fuel : Nat)
    (state : State) (msgs : List MessageId) (file : WFile) (page : List MessageId)
    (hch : state.current_channel = some ch)
    (hcond : state.last_message = none ∨ msgs.length = MESSAGE_CHUNK_SIZE)
    (hpage : fetchPageFromHistory (h ch) state.last_message = page)
    (hne : page ≠ []) :
    pageLoop (pureEnv h) (fuel + 1) state msgs file =
      ⟨(pageLoop (pureEnv h) fuel { state with last_message := page.getLast? } page
          (writeRecords (sepPair state file).1 page).1).state,
        (pageLoop (pureEnv h) fuel { state with last_message := page.getLast? } page
          (writeRecords (sepPair state file).1 page).1).msgs,
        (pageLoop (pureEnv h) fuel { state with last_message := page.getLast? } page
          (writeRecords (sepPair state file).1 page).1).file,
        Ev.fetch state.current_channel state.last_message (FetchRes.ok page) ::
          (sepPair state file).2 ++ (writeRecords (sepPair state file).1 page).2 ++
          Ev.save { state with last_message := page.getLast? } ::
            (pageLoop (pureEnv h) fuel { state with last_message := page.getLast? } page
              (writeRecords (sepPair state file).1 page).1).trace,
        (pageLoop (pureEnv h) fuel { state with last_message := page.getLast? } page
          (writeRecords (sepPair state file).1 page).1).panicked⟩ := by
  have hfe : fetch_message_chunk (pureEnv h) state = some (FetchRes.ok page) := by
    simp [fetch_message_chunk, hch, pureEnv, hpage]
  have hz : ¬ page.length = 0 := by
    intro h0
    exact hne (List.length_eq_zero.mp h0)
  simp only [pageLoop, if_pos hcond, hfe, if_neg hz, sepPair]

/-- The iteration of the paging loop that receives an empty chunk: the
loop records the fetch and stops, writing nothing. -/
theorem pageLoop_step_empty (h : ChannelId → List MessageId) (ch : ChannelId) (fuel : Nat)
    (state : State) (msgs : List MessageId) (file : WFile)
    (hch : state.current_channel = some ch)
    (hcond : state.last_message = none ∨ msgs.length = MESSAGE_CHUNK_SIZE)
    (hpage : fetchPageFromHistory (h ch) state.last_message = []) :
    pageLoop (pureEnv h) (fuel + 1) state msgs file =
      ⟨state, [], file,
        [Ev.fetch state.current_channel state.last_message (FetchRes.ok [])], false⟩ := by
  have hfe : fetch_message_chunk (pureEnv h) state = some (FetchRes.ok []) := by
    simp [fetch_message_chunk, hch, pureEnv, hpage]
  simp only [pageLoop, if_pos hcond, hfe, if_pos rfl]
  simp

/-- Pager pages commute with trace concatenation. -/
theorem fetchPages_append (a b : List Ev) :
    fetchPages (a ++ b) = fetchPages a ++ fetchPages b := by
  induction a with
  | nil => simp [fetchPages]
  | cons e t ih =>
    cases e with
    | fetch oc cur res =>
      cases res with
      | err => simpa [fetchPages] using ih
      | ok p => simpa [fetchPages] using ih
    | writeMeta c => simpa [fetchPages] using ih
    | write s => simpa [fetchPages] using ih
    | save st => simpa [fetchPages] using ih

/-- A block of write events contributes no pager pages. -/
theorem fetchPages_writes (A : List Ev) (hA : ∀ e ∈ A, ∃ s, e = Ev.write s) :
    fetchPages A = [] := by
  induction A with
  | nil => rfl
  | cons e t ih =>
    obtain ⟨s, hs⟩ := hA e (by simp)
    subst hs
    simp only [fetchPages]
    exact ih (fun e he => hA e (List.mem_cons_of_mem _ he))

/-- Separator events are write events. -/
theorem sepPair_writes (state : State) (file : WFile) :
    ∀ e ∈ (sepPair state file).2, ∃ s, e = Ev.write s := by
  unfold sepPair
  split
  · intro e he
    simp at he
    exact ⟨_, he⟩
  · intro e he
    simp at he

/-- Pager pages of one iteration block: the block's own page followed
by the pages of the rest of the trace. -/
theorem fetchPages_block (oc : Option ChannelId) (cur : Option MessageId)
    (page : List MessageId) (A B C : List Ev) (st : State)
    (hA : ∀ e ∈ A, ∃ s, e = Ev.write s) (hB : ∀ e ∈ B, ∃ s, e = Ev.write s) :
    fetchPages (Ev.fetch oc cur (FetchRes.ok page) :: A ++ B ++ Ev.save st :: C) =
      page :: fetchPages C := by
  rw [fetchPages_append, fetchPages_append]
  rw [fetchPages_writes B hB]
  have h1 : fetchPages (Ev.fetch oc cur (FetchRes.ok page) :: A) =
      page :: fetchPages A := by simp [fetchPages]
  rw [h1, fetchPages_writes A hA]
  have h2 : fetchPages (Ev.save st :: C) = fetchPages C := by simp [fetchPages]
  rw [h2]
  simp

/-- A block with no pager events contributes no pages. -/
theorem fetchPages_no_fetch (A : List Ev) (hA : ∀ e ∈ A, isFetchEv e = false) :
    fetchPages A = [] := by
  induction A with
  | nil => rfl
  | cons e t ih =>
    have he := hA e (by simp)
    have ht := ih (fun e he => hA e (List.mem_cons_of_mem _ he))
    cases e with
    | fetch oc cur res => simp [isFetchEv] at he
    | writeMeta c => simpa [fetchPages] using ht
    | write s => simpa [fetchPages] using ht
    | save st => simpa [fetchPages] using ht

/-- Observable consequences of one productive iteration of the paging
loop, phrased against caller-chosen names for the successor state and
file. -/
theorem pageLoop_step_facts (h : ChannelId → List MessageId) (ch : ChannelId) (fuel : Nat)
    (state : State) (msgs : List MessageId) (file : WFile) (page : List MessageId)
    (state1 : State) (file1 : WFile)
    (hch : state.current_channel = some ch)
    (hcond : state.last_message = none ∨ msgs.length = MESSAGE_CHUNK_SIZE)
    (hpage : fetchPageFromHistory (h ch) state.last_message = page)
    (hne : page ≠ [])
    (hstate1 : state1 = { state with last_message := page.getLast? })
    (hfile1 : file1 = (writeRecords (sepPair state file).1 page).1) :
    (pageLoop (pureEnv h) (fuel + 1) state msgs file).panicked =
      (pageLoop (pureEnv h) fuel state1 page file1).panicked ∧
    (pageLoop (pureEnv h) (fuel + 1) state msgs file).file =
      (pageLoop (pureEnv h) fuel state1 page file1).file ∧
    fetchPages (pageLoop (pureEnv h) (fuel + 1) state msgs file).trace =
      page :: fetchPages (pageLoop (pureEnv h) fuel state1 page file1).trace := by
  subst hstate1
  subst hfile1
  rw [pageLoop_step_page h ch fuel state msgs file page hch hcond hpage hne]
  refine ⟨rfl, rfl, ?_⟩
  exact fetchPages_block _ _ _ _ _ _ _ (sepPair_writes state file)
    (fun e he => writeRecords_events _ _ e he)

/-- Full paging run over a 250-message strictly descending history,
started fresh (no cursor) at the end of the output file: three pages
are fetched (two full chunks and the 50-message remainder), all 250
records are appended comma-separated, and the loop ends normally. -/
theorem pageLoop_250 (h : ChannelId → List MessageId) (ch : ChannelId)
    (hd : StrictDescending (h ch)) (hlen : (h ch).length = 250)
    (k : Nat) (state0 : State) (msgs0 : List MessageId) (file0 : WFile)
    (hch : state0.current_channel = some ch) (hlm : state0.last_message = none)
    (hpos : file0.pos = file0.content.length) :
    (pageLoop (pureEnv h) (k + 3) state0 msgs0 file0).panicked = false ∧
    (pageLoop (pureEnv h) (k + 3) state0 msgs0 file0).file.content =
      file0.content ++ joinComma ((h ch).map serializeMsg) ∧
    (pageLoop (pureEnv h) (k + 3) state0 msgs0 file0).file.pos =
      (pageLoop (pureEnv h) (k + 3) state0 msgs0 file0).file.content.length ∧
    fetchPages (pageLoop (pureEnv h) (k + 3) state0 msgs0 file0).trace =
      [(h ch).take 100, ((h ch).drop 100).take 100, (h ch).drop 200] := by
  -- page 1 facts
  have hp1len : ((h ch).take 100).length = 100 := by
    rw [List.length_take, hlen]
    decide
  have hp1ne : (h ch).take 100 ≠ [] := by
    intro he
    rw [he] at hp1len
    exact absurd hp1len.symm (by decide)
  obtain ⟨c1, hc1⟩ : ∃ c, ((h ch).take 100).getLast? = some c := by
    cases hq : ((h ch).take 100).getLast? with
    | some c => exact ⟨c, rfl⟩
    | none => exact absurd (List.getLast?_eq_none_iff.mp hq) hp1ne
  -- page 2 facts
  have hdroplen : ((h ch).drop 100).length = 150 := by
    rw [List.length_drop, hlen]
  have hp2len : (((h ch).drop 100).take 100).length = 100 := by
    rw [List.length_take, hdroplen]
    decide
  have hp2ne : ((h ch).drop 100).take 100 ≠ [] := by
    intro he
    rw [he] at hp2len
    exact absurd hp2len.symm (by decide)
  obtain ⟨c2, hc2⟩ : ∃ c, (((h ch).drop 100).take 100).getLast? = some c := by
    cases hq : (((h ch).drop 100).take 100).getLast? with
    | some c => exact ⟨c, rfl⟩
    | none => exact absurd (List.getLast?_eq_none_iff.mp hq) hp2ne
  have htake200 : (h ch).take 200 = (h ch).take 100 ++ ((h ch).drop 100).take 100 :=
    List.take_add (h ch) 100 100
  have hc2' : ((h ch).take 200).getLast? = some c2 := by
    rw [htake200, List.getLast?_append, hc2]
    rfl
  -- page 3 facts
  have hp3len : ((h ch).drop 200).length = 50 := by
    rw [List.length_drop, hlen]
  have hp3ne : (h ch).drop 200 ≠ [] := by
    intro he
    rw [he] at hp3len
    exact absurd hp3len.symm (by decide)
  obtain ⟨c3, hc3⟩ : ∃ c, ((h ch).drop 200).getLast? = some c := by
    cases hq : ((h ch).drop 200).getLast? with
    | some c => exact ⟨c, rfl⟩
    | none => exact absurd (List.getLast?_eq_none_iff.mp hq) hp3ne
  have hp3full : ((h ch).drop 200).take MESSAGE_CHUNK_SIZE = (h ch).drop 200 :=
    List.take_of_length_le (by rw [hp3len]; decide)
  -- named successor states and files
  have hsf0 : (sepPair state0 file0).1 = file0 := by
    simp [sepPair, hlm]
  obtain ⟨hf1c, hf1p⟩ := writeRecords_content ((h ch).take 100) file0 hpos
  have hsf1 : (sepPair { state0 with last_message := some c1 }
      (writeRecords file0 ((h ch).take 100)).1).1 =
      wWrite (writeRecords file0 ((h ch).take 100)).1 (str ",") := by
    simp [sepPair]
  have hcm1 : wWrite (writeRecords file0 ((h ch).take 100)).1 (str ",") =
      ⟨(writeRecords file0 ((h ch).take 100)).1.content ++ str ",",
        (writeRecords file0 ((h ch).take 100)).1.content.length + (str ",").length⟩ :=
    wWrite_append _ _ hf1p
  have hcm1p : (wWrite (writeRecords file0 ((h ch).take 100)).1 (str ",")).pos =
      (wWrite (writeRecords file0 ((h ch).take 100)).1 (str ",")).content.length := by
    rw [hcm1]
    simp
  obtain ⟨hf2c, hf2p⟩ := writeRecords_content (((h ch).drop 100).take 100)
    (wWrite (writeRecords file0 ((h ch).take 100)).1 (str ",")) hcm1p
  have hsf2 : (sepPair { state0 with last_message := some c2 }
      (writeRecords (wWrite (writeRecords file0 ((h ch).take 100)).1 (str ","))
        (((h ch).drop 100).take 100)).1).1 =
      wWrite (writeRecords (wWrite (writeRecords file0 ((h ch).take 100)).1 (str ","))
        (((h ch).drop 100).take 100)).1 (str ",") := by
    simp [sepPair]
  have hcm2 := wWrite_append (writeRecords (wWrite (writeRecords file0
    ((h ch).take 100)).1 (str ",")) (((h ch).drop 100).take 100)).1 (str ",") hf2p
  have hcm2p : (wWrite (writeRecords (wWrite (writeRecords file0 ((h ch).take 100)).1
      (str ",")) (((h ch).drop 100).take 100)).1 (str ",")).pos =
      (wWrite (writeRecords (wWrite (writeRecords file0 ((h ch).take 100)).1
        (str ",")) (((h ch).drop 100).take 100)).1 (str ",")).content.length := by
    rw [hcm2]
    simp
  obtain ⟨hf3c, hf3p⟩ := writeRecords_content ((h ch).drop 200)
    (wWrite (writeRecords (wWrite (writeRecords file0 ((h ch).take 100)).1 (str ","))
      (((h ch).drop 100).take 100)).1 (str ",")) hcm2p
  -- the three iteration steps
  obtain ⟨hs1p, hs1f, hs1t⟩ := pageLoop_step_facts h ch (k + 2) state0 msgs0 file0
    ((h ch).take 100) { state0 with last_message := some c1 }
    (writeRecords file0 ((h ch).take 100)).1 hch (Or.inl hlm)
    (by rw [hlm]; rfl) hp1ne (by rw [hc1]) (by rw [hsf0])
  obtain ⟨hs2p, hs2f, hs2t⟩ := pageLoop_step_facts h ch (k + 1)
    { state0 with last_message := some c1 } ((h ch).take 100)
    (writeRecords file0 ((h ch).take 100)).1 (((h ch).drop 100).take 100)
    { state0 with last_message := some c2 }
    (writeRecords (wWrite (writeRecords file0 ((h ch).take 100)).1 (str ","))
      (((h ch).drop 100).take 100)).1
    hch (Or.inr hp1len)
    (by
      show fetchPageFromHistory (h ch) (some c1) = _
      exact fetch_after_block (h ch) 100 c1 hd hc1)
    hp2ne (by rw [hc2]) (by rw [hsf1])
  obtain ⟨hs3p, hs3f, hs3t⟩ := pageLoop_step_facts h ch k
    { state0 with last_message := some c2 } (((h ch).drop 100).take 100)
    (writeRecords (wWrite (writeRecords file0 ((h ch).take 100)).1 (str ","))
      (((h ch).drop 100).take 100)).1
    ((h ch).drop 200) { state0 with last_message := some c3 }
    (writeRecords (wWrite (writeRecords (wWrite (writeRecords file0
      ((h ch).take 100)).1 (str ",")) (((h ch).drop 100).take 100)).1 (str ","))
      ((h ch).drop 200)).1
    hch (Or.inr hp2len)
    (by
      show fetchPageFromHistory (h ch) (some c2) = _
      rw [fetch_after_block (h ch) 200 c2 hd hc2']
      exact hp3full)
    hp3ne (by rw [hc3]) (by rw [hsf2])
  -- the exit
  have hexit := pageLoop_exit (pureEnv h) k { state0 with last_message := some c3 }
    ((h ch).drop 200)
    (writeRecords (wWrite (writeRecords (wWrite (writeRecords file0
      ((h ch).take 100)).1 (str ",")) (((h ch).drop 100).take 100)).1 (str ","))
      ((h ch).drop 200)).1
    (by
      intro hcon
      rcases hcon with hno | hnum
      · simp at hno
      · rw [hp3len] at hnum
        exact absurd hnum (by decide))
  -- combine the chains
  have hK : k + 3 = k + 2 + 1 := rfl
  rw [hK, hs1p, hs1f, hs1t, hs2p, hs2f, hs2t, hs3p, hs3f, hs3t, hexit]
  simp only [fetchPages]
  -- the joined records
  have hsplitA : (h ch) = (h ch).take 100 ++ (h ch).drop 100 :=
    (List.take_append_drop 100 (h ch)).symm
  have hsplitB : (h ch).drop 100 = ((h ch).drop 100).take 100 ++ (h ch).drop 200 := by
    have h1 := List.take_append_drop 100 ((h ch).drop 100)
    rw [List.drop_drop] at h1
    exact h1.symm
  have hmapA : (h ch).map serializeMsg =
      ((h ch).take 100).map serializeMsg ++ ((h ch).drop 100).map serializeMsg := by
    conv_lhs => rw [hsplitA]
    rw [List.map_append]
  have hmapB : ((h ch).drop 100).map serializeMsg =
      (((h ch).drop 100).take 100).map serializeMsg ++
        ((h ch).drop 200).map serializeMsg := by
    conv_lhs => rw [hsplitB]
    rw [List.map_append]
  have hjoin : joinComma ((h ch).map serializeMsg) =
      joinComma (((h ch).take 100).map serializeMsg) ++
        ',' :: (joinComma ((((h ch).drop 100).take 100).map serializeMsg) ++
          ',' :: joinComma (((h ch).drop 200).map serializeMsg)) := by
    rw [hmapA, joinComma_append _ _
      (fun hm => hp1ne (List.map_eq_nil_iff.mp hm))
      (by
        intro hm
        rw [hmapB] at hm
        rcases List.append_eq_nil.mp hm with ⟨hm1, _⟩
        exact hp2ne (List.map_eq_nil_iff.mp hm1))]
    rw [hmapB, joinComma_append _ _
      (fun hm => hp2ne (List.map_eq_nil_iff.mp hm))
      (fun hm => hp3ne (List.map_eq_nil_iff.mp hm))]
  refine ⟨trivial, ?_, ?_, trivial⟩
  · rw [hf3c, hcm2, hf2c, hcm1, hf1c, hjoin]
    simp [List.append_assoc, str]
  · exact hf3p

/-- Unfolding of the post-open processing when the paging loop ends
without panic: close the array, insert into the completed set, save. -/
theorem processChannelCont_ok_eq (env : Env) (fuel : Nat) (ch : ChannelId)
    (state : State) (msgsIn : List MessageId) (file : WFile) (metaW : Bool)
    (openT : List Ev)
    (hp : (pageLoop env fuel state msgsIn file).panicked = false) :
    processChannelCont env fuel ch state msgsIn file metaW openT =
      ⟨COutcome.ok,
        { (pageLoop env fuel state msgsIn file).state with
          channels_complete :=
            insertChannel (pageLoop env fuel state msgsIn file).state.channels_complete ch },
        (pageLoop env fuel state msgsIn file).msgs,
        wWrite (pageLoop env fuel state msgsIn file).file (str "]"),
        metaW,
        openT ++ Ev.save state :: (pageLoop env fuel state msgsIn file).trace ++
          [Ev.write (str "]"),
            Ev.save { (pageLoop env fuel state msgsIn file).state with
              channels_complete :=
                insertChannel (pageLoop env fuel state msgsIn file).state.channels_complete ch }]⟩ := by
  simp only [processChannelCont, hp, Bool.false_eq_true, if_false]

/-- Unfolding of the fresh-channel open path (no prior metadata file,
no prior messages file). -/
theorem processChannel_fresh_eq (env : Env) (fuel : Nat) (stateIn : State)
    (ch : ChannelId) (msgsIn : List MessageId)
    (hfresh : stateIn.current_channel ≠ some ch) :
    processChannel env fuel stateIn ch msgsIn false none =
      processChannelCont env fuel ch
        { stateIn with current_channel := some ch, last_message := none } msgsIn
        (wWrite ⟨[], 0⟩ (str "[")) true [Ev.writeMeta ch, Ev.write (str "[")] := by
  rw [processChannel.eq_def, if_pos hfresh]
  simp only [Bool.false_eq_true, if_false, Option.isSome_none]

/-- C7: for a fresh (never-started) channel processed without fetch
errors in a single run: with a 250-message history the pager yields
pages of sizes 100, 100, 50, and the final messages file is exactly one
opening delimiter, the 250 comma-separated records (no trailing
separator), and one closing delimiter — the file contains exactly one
`[` and one `]`; with an empty history exactly one page fetch happens,
returning the empty page, and the final file is the empty array. -/
theorem c7_page_sizes_and_file_shape :
    (∀ (hh : ChannelId → List MessageId) (ch : ChannelId) (stateIn : State)
        (msgsIn : List MessageId) (fuel : Nat),
      stateIn.current_channel ≠ some ch →
      StrictDescending (hh ch) → (hh ch).length = 250 → 3 ≤ fuel →
      (processChannel (pureEnv hh) fuel stateIn ch msgsIn false none).outcome =
        COutcome.ok ∧
      fetchPages (processChannel (pureEnv hh) fuel stateIn ch msgsIn false none).trace =
        [(hh ch).take 100, ((hh ch).drop 100).take 100, (hh ch).drop 200] ∧
      (fetchPages
        (processChannel (pureEnv hh) fuel stateIn ch msgsIn false none).trace).map
          List.length = [100, 100, 50] ∧
      (processChannel (pureEnv hh) fuel stateIn ch msgsIn false none).file.content =
        str "[" ++ joinComma ((hh ch).map serializeMsg) ++ str "]" ∧
      (processChannel (pureEnv hh) fuel stateIn ch msgsIn false none).file.content.count
        '[' = 1 ∧
      (processChannel (pureEnv hh) fuel stateIn ch msgsIn false none).file.content.count
        ']' = 1) ∧
    (∀ (hh : ChannelId → List MessageId) (ch : ChannelId) (stateIn : State)
        (msgsIn : List MessageId) (fuel : Nat),
      stateIn.current_channel ≠ some ch → hh ch = [] → 1 ≤ fuel →
      (processChannel (pureEnv hh) fuel stateIn ch msgsIn false none).outcome =
        COutcome.ok ∧
      countFetches (processChannel (pureEnv hh) fuel stateIn ch msgsIn false none).trace
        = 1 ∧
      fetchPages (processChannel (pureEnv hh) fuel stateIn ch msgsIn false none).trace =
        [[]] ∧
      (processChannel (pureEnv hh) fuel stateIn ch msgsIn false none).file.content =
        str "[]") := by
  constructor
  · intro hh ch stateIn msgsIn fuel hfresh hd hlen hfuel
    obtain ⟨k, rfl⟩ : ∃ k, fuel = k + 3 := ⟨fuel - 3, by omega⟩
    rw [processChannel_fresh_eq _ _ _ _ _ hfresh]
    have hfpos : (wWrite ⟨[], 0⟩ (str "[")).pos =
        (wWrite ⟨[], 0⟩ (str "[")).content.length := by
      simp [wWrite]
    obtain ⟨hLp, hLc, hLpos, hLt⟩ := pageLoop_250 hh ch hd hlen k
      { stateIn with current_channel := some ch, last_message := none } msgsIn
      (wWrite ⟨[], 0⟩ (str "[")) rfl rfl hfpos
    rw [processChannelCont_ok_eq _ _ _ _ _ _ _ _ hLp]
    have hf0c : (wWrite (⟨[], 0⟩ : WFile) (str "[")).content = str "[" := by
      simp [wWrite]
    have htr : fetchPages ([Ev.writeMeta ch, Ev.write (str "[")] ++
        Ev.save { stateIn with current_channel := some ch, last_message := none } ::
        (pageLoop (pureEnv hh) (k + 3)
          { stateIn with current_channel := some ch, last_message := none } msgsIn
          (wWrite ⟨[], 0⟩ (str "["))).trace ++
        [Ev.write (str "]"),
          Ev.save { (pageLoop (pureEnv hh) (k + 3)
              { stateIn with current_channel := some ch, last_message := none } msgsIn
              (wWrite ⟨[], 0⟩ (str "["))).state with
            channels_complete := insertChannel (pageLoop (pureEnv hh) (k + 3)
              { stateIn with current_channel := some ch, last_message := none } msgsIn
              (wWrite ⟨[], 0⟩ (str "["))).state.channels_complete ch }]) =
        fetchPages (pageLoop (pureEnv hh) (k + 3)
          { stateIn with current_channel := some ch, last_message := none } msgsIn
          (wWrite ⟨[], 0⟩ (str "["))).trace := by
      rw [fetchPages_append, fetchPages_append]
      simp [fetchPages]
    have hlen1 : ((hh ch).take 100).length = 100 := by
      rw [List.length_take, hlen]
      decide
    have hlen2 : (((hh ch).drop 100).take 100).length = 100 := by
      rw [List.length_take, List.length_drop, hlen]
      decide
    have hlen3 : ((hh ch).drop 200).length = 50 := by
      rw [List.length_drop, hlen]
    have hsub : ∀ r ∈ (hh ch).map serializeMsg, ∀ c ∈ r, c ∈ digitChars := by
      intro r hr c hc
      obtain ⟨m, _, rfl⟩ := List.mem_map.mp hr
      exact serializeMsg_digits m c hc
    have hnoL : '[' ∉ joinComma ((hh ch).map serializeMsg) :=
      fun hm => absurd (joinComma_chars _ hsub _ hm) (by decide)
    have hnoR : ']' ∉ joinComma ((hh ch).map serializeMsg) :=
      fun hm => absurd (joinComma_chars _ hsub _ hm) (by decide)
    refine ⟨rfl, ?_, ?_, ?_, ?_, ?_⟩
    · rw [htr, hLt]
    · rw [htr, hLt]
      simp [hlen1, hlen2, hlen3]
    · show (wWrite (pageLoop (pureEnv hh) (k + 3) _ msgsIn _).file (str "]")).content = _
      rw [wWrite_append _ _ hLpos, hLc, hf0c]
    · show ((wWrite (pageLoop (pureEnv hh) (k + 3) _ msgsIn _).file (str "]")).content).count '[' = 1
      rw [wWrite_append _ _ hLpos, hLc, hf0c]
      simp only [List.count_append]
      rw [List.count_eq_zero.mpr hnoL]
      decide
    · show ((wWrite (pageLoop (pureEnv hh) (k + 3) _ msgsIn _).file (str "]")).content).count ']' = 1
      rw [wWrite_append _ _ hLpos, hLc, hf0c]
      simp only [List.count_append]
      rw [List.count_eq_zero.mpr hnoR]
      decide
  · intro hh ch stateIn msgsIn fuel hfresh hzero hfuel
    obtain ⟨k, rfl⟩ : ∃ k, fuel = k + 1 := ⟨fuel - 1, by omega⟩
    rw [processChannel_fresh_eq _ _ _ _ _ hfresh]
    have hempty := pageLoop_step_empty hh ch k
      { stateIn with current_channel := some ch, last_message := none } msgsIn
      (wWrite ⟨[], 0⟩ (str "[")) rfl (Or.inl rfl)
      (by
        show fetchPageFromHistory (hh ch) none = []
        rw [hzero]
        rfl)
    have hp : (pageLoop (pureEnv hh) (k + 1)
        { stateIn with current_channel := some ch, last_message := none } msgsIn
        (wWrite ⟨[], 0⟩ (str "["))).panicked = false := by
      rw [hempty]
    rw [processChannelCont_ok_eq _ _ _ _ _ _ _ _ hp, hempty]
    refine ⟨rfl, ?_, ?_, ?_⟩
    · simp [countFetches]
    · simp [fetchPages]
    · simp [wWrite, str]

/-- A concrete 250-message history: ids 250 down to 1, newest first. -/
def c7Hist : List MessageId := (List.range 250).map (fun i => 250 - i)

/-- Witness for C7 at concrete inputs: the 250-message history above
(fresh channel 1, fuel 3) and the empty history (fuel 1). -/
theorem c7_page_sizes_and_file_shape_witness :
    ((processChannel (pureEnv (fun _ => c7Hist)) 3 ⟨1, none, none, []⟩ 1 [] false
        none).outcome = COutcome.ok ∧
      fetchPages (processChannel (pureEnv (fun _ => c7Hist)) 3 ⟨1, none, none, []⟩ 1 []
        false none).trace =
        [c7Hist.take 100, (c7Hist.drop 100).take 100, c7Hist.drop 200] ∧
      (fetchPages (processChannel (pureEnv (fun _ => c7Hist)) 3 ⟨1, none, none, []⟩ 1 []
        false none).trace).map List.length = [100, 100, 50] ∧
      (processChannel (pureEnv (fun _ => c7Hist)) 3 ⟨1, none, none, []⟩ 1 [] false
        none).file.content =
        str "[" ++ joinComma (c7Hist.map serializeMsg) ++ str "]" ∧
      (processChannel (pureEnv (fun _ => c7Hist)) 3 ⟨1, none, none, []⟩ 1 [] false
        none).file.content.count '[' = 1 ∧
      (processChannel (pureEnv (fun _ => c7Hist)) 3 ⟨1, none, none, []⟩ 1 [] false
        none).file.content.count ']' = 1) ∧
    ((processChannel (pureEnv (fun _ => ([] : List MessageId))) 1 ⟨1, none, none, []⟩ 1
        [] false none).outcome = COutcome.ok ∧
      countFetches (processChannel (pureEnv (fun _ => ([] : List MessageId))) 1
        ⟨1, none, none, []⟩ 1 [] false none).trace = 1 ∧
      fetchPages (processChannel (pureEnv (fun _ => ([] : List MessageId))) 1
        ⟨1, none, none, []⟩ 1 [] false none).trace = [[]] ∧
      (processChannel (pureEnv (fun _ => ([] : List MessageId))) 1 ⟨1, none, none, []⟩ 1
        [] false none).file.content = str "[]") :=
  ⟨c7_page_sizes_and_file_shape.1 (fun _ => c7Hist) 1 ⟨1, none, none, []⟩ [] 3
      (by decide) (by decide) (by decide) (by decide),
    c7_page_sizes_and_file_shape.2 (fun _ => []) 1 ⟨1, none, none, []⟩ [] 1
      (by decide) rfl (by decide)⟩
